import Mathlib

/-!
Verification of the 3D-FLAIR variance pipeline (`Code/Process3DFLAIR.py`).

The development shallowly embeds the control/data-flow logic of the
`Process3DFLAIR` class: the path conventions built in `__init__` and the
per-stage format strings, the voxel-wise variance computation of
`calcVariance`, the file-reorganisation loop of `correctBiasField`, and the
event traces (external-tool invocations, file moves/removals, loads and
saves) of `extractBrain`/`applyBETMask`, `correctBiasField`,
`intensityNormalisation`, `calcVariance` and the orchestrator
`runVariancePipeline`.  Machine floats are modelled by `ℚ` (all claims only
involve exactly representable values), fallible code returns `Option`, and
the filesystem is a list of existing paths.
-/

namespace Flair

/-- Python `str(t).zfill(2)`: pad the decimal representation of `t` with
leading zeros to width 2 (used by `applyBETMask` and `findDICOMFolder`). -/
def zfill2str (t : ℕ) : String :=
  let s := toString t
  if s.length < 2 then "0" ++ s else s

/-- Python `str(0) + str(t)`: the `current_img_str` built inside
`correctBiasField`, `intensityNormalisation` and `calcVariance`
(always a literal `"0"` prepended, without truncation). -/
def currentImgStr (t : ℕ) : String := "0" ++ toString t

/-! ### Directory tree from `Process3DFLAIR.__init__` -/

def subject_directory_root (sid : String) : String :=
  "/home/ela/Documents/B-RAPIDD/" ++ sid ++ "/3D-FLAIR/"

def registered_directory (sid : String) : String :=
  subject_directory_root sid ++ "registered_nifti/"

def subject_bias_directory (sid : String) : String :=
  subject_directory_root sid ++ "bias_nifti/"

def subject_bias_fields_directory (sid : String) : String :=
  subject_bias_directory sid ++ "fields/"

def subject_normalised_directory (sid : String) : String :=
  subject_directory_root sid ++ "normalised_nifti/"

def subject_nifti_directory (sid : String) : String :=
  subject_directory_root sid ++ "original_nifti/"

def subject_brain_directory (sid : String) : String :=
  subject_directory_root sid ++ "brain_nifti/"

def subject_brain_mask_directory (sid : String) : String :=
  subject_brain_directory sid ++ "masks/"

/-! ### Per-stage file-name formats (the Python format strings, applied to a
time-point string `s`) -/

def nifti_file_format (sid s : String) : String :=
  subject_nifti_directory sid ++ sid ++ "_" ++ s ++ "_D1.nii.gz"

def brain_file_format (sid s : String) : String :=
  subject_brain_directory sid ++ sid ++ "_" ++ s ++ "_D1.nii.gz"

/-- `applyBETMask`'s `brain_file_mask_format` (note the `.nii` extension). -/
def brain_file_mask_format (sid s : String) : String :=
  subject_brain_directory sid ++ "masks/" ++ sid ++ "_" ++ s ++ "_D1.nii"

def registered_whole_brain_format (sid s : String) : String :=
  registered_directory sid ++ sid ++ "_" ++ s ++ "_D1.nii.gz"

/-- `applyBETMask`'s `affine_file_path_format`: the source concatenates
`self.registered_directory + '/FLIRT_mat/'`, producing a double slash. -/
def affine_file_path_format (sid s : String) : String :=
  registered_directory sid ++ "/FLIRT_mat/" ++ sid ++ "_" ++ s ++ "_D1_flirt.mat"

def bias_file_format (sid s : String) : String :=
  subject_bias_directory sid ++ sid ++ "_" ++ s ++ "_D1.nii.gz"

/-- `intensityNormalisation`'s bias-corrected input format
(`..._D1_restore.nii.gz`). -/
def bias_restore_format (sid s : String) : String :=
  subject_bias_directory sid ++ sid ++ "_" ++ s ++ "_D1_restore.nii.gz"

def normalised_file_format (sid s : String) : String :=
  subject_normalised_directory sid ++ sid ++ "_" ++ s ++ "_D1.nii.gz"

/-! ### Numeric arrays and NIfTI images (value level)

`NArr` is the numpy array returned by `nib.load(p).get_fdata()` (shape plus
voxel data; the affine is already discarded by `get_fdata`).  `NiftiImage`
is a `nib.Nifti1Image`: an array together with its 4×4 affine. -/

structure NArr where
  shape : ℕ × ℕ × ℕ
  data : ℕ → ℕ → ℕ → ℚ

/-- Bounds-checked numpy indexing `a[i, j, k]` (`none` = `IndexError`). -/
def NArr.at? (a : NArr) (i j k : ℕ) : Option ℚ :=
  if i < a.shape.1 ∧ j < a.shape.2.1 ∧ k < a.shape.2.2 then
    some (a.data i j k)
  else
    none

structure NiftiImage where
  arr : NArr
  affine : Fin 4 → Fin 4 → ℚ

/-- `np.eye(4)`, the identity affine passed to every `nib.Nifti1Image`
constructed by `intensityNormalisation` and `calcVariance`. -/
def eye4 : Fin 4 → Fin 4 → ℚ := fun i j => if i = j then 1 else 0

/-- `nib.Nifti1Image(arr, affine)`. -/
def Nifti1Image (a : NArr) (aff : Fin 4 → Fin 4 → ℚ) : NiftiImage :=
  ⟨a, aff⟩

/-- `img.get_fdata()`: the bare voxel array, dropping the affine. -/
def NiftiImage.get_fdata (img : NiftiImage) : NArr := img.arr

/-- `np.var` on a 1×m row vector: the population variance, the mean of
squared deviations from the mean. -/
def npVar (xs : List ℚ) : ℚ :=
  let μ := xs.sum / (xs.length : ℚ)
  ((xs.map fun x => (x - μ) ^ 2).sum) / (xs.length : ℚ)

/-- The inner gathering loop of `calcVariance`:
`for n in range(count): voxel_intensities[0, n] = images[n][i, j, k]`.
Returns the row `[images[0][i,j,k], …, images[count-1][i,j,k]]`, or `none`
if some access raises `IndexError` (missing image or out-of-range voxel). -/
def gatherList (imgs : List NArr) (count : ℕ) (i j k : ℕ) : Option (List ℚ) :=
  match count, imgs with
  | 0, _ => some []
  | _ + 1, [] => none
  | n + 1, a :: rest =>
    match a.at? i j k, gatherList rest n i j k with
    | some x, some xs => some (x :: xs)
    | _, _ => none

/-- `calcVariance`'s in-memory computation.  `numTps` is
`len(self.time_points_to_consider)`; `images` are the loaded normalised
volumes.  The variance array is preallocated with `images[0].shape`
(`IndexError`, hence `none`, on an empty list); the triple spatial loop
gathers each voxel's intensities across time and stores `np.var` of them;
the result is wrapped as `nib.Nifti1Image(variances, affine=np.eye(4))`.
`none` models the Python run crashing (no output file written). -/
def calcVarianceVol (numTps : ℕ) (images : List NiftiImage) : Option NiftiImage :=
  let arrs := images.map NiftiImage.get_fdata
  match arrs with
  | [] => none
  | a0 :: _ =>
    let s := a0.shape
    if ∀ i, i < s.1 → ∀ j, j < s.2.1 → ∀ k, k < s.2.2 →
        (gatherList arrs numTps i j k).isSome then
      some (Nifti1Image
        ⟨s, fun i j k => npVar ((gatherList arrs numTps i j k).getD [])⟩
        eye4)
    else
      none

/-- The saving loop of `intensityNormalisation`: the external Nyul
normaliser (`nyul`) maps the loaded arrays to normalised arrays, and each
result is wrapped as `nib.Nifti1Image(normalized[i], affine=np.eye(4))`
before being written. -/
def intensityNormalisationSaved (nyul : List NArr → List NArr)
    (images : List NiftiImage) : List NiftiImage :=
  (nyul (images.map NiftiImage.get_fdata)).map fun a => Nifti1Image a eye4

/-! ### The reorganisation loop of `correctBiasField`

After the FAST runs, `correctBiasField` iterates over `os.listdir` of the
brain directory and, for every file starting with the subject id, computes
`base_name = filename.rsplit(".", 2)[0]` and
`suffix = base_name.rsplit("_", 1)[1]`, then moves `restore` files to the
bias directory, moves `bias` files to the fields subdirectory, deletes
`mixeltype`/`seg` files and files whose base name contains `pve`, and skips
everything else. -/

/-- Python `s.rsplit(sep, 1)`: split off the segment after the last `sep`.
`none` when `sep` does not occur (Python then returns the one-element list
`[s]`, so indexing `[1]` raises `IndexError`). -/
def rsplitOnce (sep : Char) (s : List Char) : Option (List Char × List Char) :=
  let r := s.reverse
  let seg := r.takeWhile (fun c => c ≠ sep)
  if seg.length = r.length then none
  else some ((r.drop (seg.length + 1)).reverse, seg.reverse)

/-- Python `filename.rsplit(".", 2)[0]`: strip up to two dot-extensions. -/
def pythonBaseName (filename : List Char) : List Char :=
  match rsplitOnce '.' filename with
  | none => filename
  | some (l1, _) =>
    match rsplitOnce '.' l1 with
    | none => l1
    | some (l2, _) => l2

/-- Python `pat in s` on strings (substring containment), on character
lists. -/
def listHasInfix (pat : List Char) : List Char → Bool
  | [] => decide (pat = [])
  | c :: rest => pat.isPrefixOf (c :: rest) || listHasInfix pat rest

/-- What the reorganisation loop decides to do with one directory entry. -/
inductive FileAction where
  | moveToTarget
  | moveToFields
  | delete
  | keep
deriving DecidableEq

/-- The branch taken by the reorganisation loop for one entry.  `none`
models the `IndexError` raised by `base_name.rsplit("_", 1)[1]` when the
base name of a subject-prefixed entry contains no underscore. -/
def classify (sid : String) (filename : String) : Option FileAction :=
  if sid.data.isPrefixOf filename.data then
    let base := pythonBaseName filename.data
    match rsplitOnce '_' base with
    | none => none
    | some (_, suf) =>
      if suf = "restore".data then some .moveToTarget
      else if suf = "bias".data then some .moveToFields
      else if suf = "mixeltype".data then some .delete
      else if suf = "seg".data then some .delete
      else if listHasInfix "pve".data base then some .delete
      else some .keep
  else some .keep

/-! ### Event traces -/

/-- One observable action of the pipeline.  `flirt`, `fnirt`, `applyMask`,
`fastSeg` and `reorient` are invocations of external tools (FSL FLIRT /
FNIRT / ApplyMask / FAST / Reorient2Std); the rest are filesystem and
library operations performed in-process. -/
inductive Event where
  | flirt (kind : String) (reference target out : String)
  | fnirt (reference target out affineMat : String)
  | applyMask (inFile maskFile outFile : String)
  | fastSeg (inFile : String)
  | reorient (file : String)
  | moveFile (src dst : String)
  | removeFile (path : String)
  | loadNifti (path : String)
  | nyulFit
  | saveHistogram (path : String)
  | saveNifti (path : String)
deriving DecidableEq

/-- Whether an event is an external-tool invocation. -/
def Event.isExternal : Event → Bool
  | .flirt _ _ _ _ => true
  | .fnirt _ _ _ _ => true
  | .applyMask _ _ _ => true
  | .fastSeg _ => true
  | .reorient _ => true
  | _ => false

/-- The filesystem: the set of existing paths. -/
abbrev FS := List String

/-- Writing a file: the path exists afterwards (overwriting keeps one copy). -/
def insertFile (fs : FS) (p : String) : FS :=
  if p ∈ fs then fs else fs ++ [p]

/-- The run configuration held by a `Process3DFLAIR` instance. -/
structure Config where
  subject_id : String
  time_points_to_consider : List ℕ
  registration_method : String

/-- The events emitted by one `applyBETMask(extracted, to_extract)` call:
three independent `if registration_method == …` branches (each invoking the
`Registration` module on the same output path), then the unconditional
`fsl.ApplyMask` on the expected registered-volume path. -/
def applyBETMaskEvents (cfg : Config) (extracted to_extract : ℕ) : List Event :=
  let sid := cfg.subject_id
  let extracted_brain := brain_file_format sid (zfill2str extracted)
  let brain_to_extract := nifti_file_format sid (zfill2str to_extract)
  let mask := brain_file_mask_format sid (zfill2str extracted)
  let registered_whole_brain := registered_whole_brain_format sid (zfill2str to_extract)
  ((if cfg.registration_method = "rigidfsl" then
      [Event.flirt "rigid" extracted_brain brain_to_extract registered_whole_brain]
    else []) ++
   (if cfg.registration_method = "affinefsl" then
      [Event.flirt "affine" extracted_brain brain_to_extract registered_whole_brain]
    else []) ++
   (if cfg.registration_method = "nonlinearfsl" then
      [Event.fnirt extracted_brain brain_to_extract registered_whole_brain
        (affine_file_path_format sid (zfill2str to_extract))]
    else [])) ++
  [Event.applyMask registered_whole_brain mask
    (brain_file_format sid (zfill2str to_extract))]

/-- The filesystem effect of one `applyBETMask` call: each taken
registration branch writes the registered volume; `ApplyMask` writes the
brain-extracted volume. -/
def applyBETMaskFS (cfg : Config) (fs : FS) (to_extract : ℕ) : FS :=
  let sid := cfg.subject_id
  let registered_whole_brain := registered_whole_brain_format sid (zfill2str to_extract)
  let fs1 := if cfg.registration_method = "rigidfsl" then
      insertFile fs registered_whole_brain else fs
  let fs2 := if cfg.registration_method = "affinefsl" then
      insertFile fs1 registered_whole_brain else fs1
  let fs3 := if cfg.registration_method = "nonlinearfsl" then
      insertFile fs2 registered_whole_brain else fs2
  insertFile fs3 (brain_file_format sid (zfill2str to_extract))

/-- `applyBETMask`, as state transformer plus emitted events. -/
def applyBETMask (cfg : Config) (fs : FS) (extracted to_extract : ℕ) :
    FS × List Event :=
  (applyBETMaskFS cfg fs to_extract, applyBETMaskEvents cfg extracted to_extract)

/-- The loop of `extractBrain`:
`for i in range(len(tps) - 1): applyBETMask(template, tps[i])`. -/
def extractLoop (cfg : Config) (template : ℕ) (ts : List ℕ)
    (fs : FS) (tr : List Event) : FS × List Event :=
  match ts with
  | [] => (fs, tr)
  | t :: rest =>
    let r := applyBETMask cfg fs template t
    extractLoop cfg template rest r.1 (tr ++ r.2)

/-- `extractBrain`: the template is `time_points_to_consider[-1]`
(`IndexError`, hence `none`, on an empty list); every earlier configured
time point is processed by `applyBETMask(template, ·)`. -/
def extractBrain (cfg : Config) (fs : FS) : Option (FS × List Event) :=
  match cfg.time_points_to_consider.getLast? with
  | none => none
  | some template =>
    some (extractLoop cfg template cfg.time_points_to_consider.dropLast fs [])

/-- The `(extracted, to_extract)` pairs with which `extractBrain` invokes
`applyBETMask`: `(template, tps[i])` for `i in range(len(tps) - 1)`. -/
def extractBrainCalls (cfg : Config) : Option (List (ℕ × ℕ)) :=
  match cfg.time_points_to_consider.getLast? with
  | none => none
  | some template =>
    some (cfg.time_points_to_consider.dropLast.map fun t => (template, t))

/-- The `fsl.FAST` invocations of `correctBiasField`: one per configured
time point, on the brain file named with `str(0) + str(t)`. -/
def fastEvents (cfg : Config) : List Event :=
  cfg.time_points_to_consider.map fun t =>
    Event.fastSeg (brain_file_format cfg.subject_id (currentImgStr t))

/-- `os.listdir` of the brain directory: the names (relative to the
directory, immediate children only) of the files living there. -/
def brainDirListing (sid : String) (fs : FS) : List String :=
  fs.filterMap fun p =>
    if (subject_brain_directory sid).data.isPrefixOf p.data then
      if (p.data.drop (subject_brain_directory sid).data.length).contains '/' then none
      else some (String.mk (p.data.drop (subject_brain_directory sid).data.length))
    else none

/-- One iteration of the reorganisation loop on directory entry `name`:
move / delete / keep according to `classify` (`none` = `IndexError`). -/
def reorgFileStep (sid : String) (acc : FS × List Event) (name : String) :
    Option (FS × List Event) :=
  let src := subject_brain_directory sid ++ name
  match classify sid name with
  | none => none
  | some .moveToTarget =>
    let dst := subject_bias_directory sid ++ name
    some (insertFile (acc.1.filter (· ≠ src)) dst, acc.2 ++ [Event.moveFile src dst])
  | some .moveToFields =>
    let dst := subject_bias_fields_directory sid ++ name
    some (insertFile (acc.1.filter (· ≠ src)) dst, acc.2 ++ [Event.moveFile src dst])
  | some .delete =>
    some (acc.1.filter (· ≠ src), acc.2 ++ [Event.removeFile src])
  | some .keep => some acc

/-- The reorganisation loop over the (snapshotted) directory listing. -/
def reorgLoop (sid : String) (listing : List String) (acc : FS × List Event) :
    Option (FS × List Event) :=
  match listing with
  | [] => some acc
  | n :: rest =>
    match reorgFileStep sid acc n with
    | none => none
    | some acc' => reorgLoop sid rest acc'

/-- `correctBiasField(method)`: under `method == 'FSL'`, one FAST run per
configured time point followed by the file-tree reorganisation; any other
method falls through and does nothing. -/
def correctBiasField (cfg : Config) (method : String) (fs : FS) :
    Option (FS × List Event) :=
  if method = "FSL" then
    reorgLoop cfg.subject_id (brainDirListing cfg.subject_id fs) (fs, fastEvents cfg)
  else
    some (fs, [])

/-- The input paths of `intensityNormalisation`: bias-corrected `restore`
volumes when `useBiasCorrected`, raw brain volumes otherwise, named with
`str(0) + str(t)`. -/
def normImagePaths (cfg : Config) (useBiasCorrected : Bool) : List String :=
  cfg.time_points_to_consider.map fun t =>
    if useBiasCorrected then bias_restore_format cfg.subject_id (currentImgStr t)
    else brain_file_format cfg.subject_id (currentImgStr t)

/-- `intensityNormalisation`: load every configured volume, fit the Nyul
model, persist the standard histogram, save each normalised volume, then
reorient each saved volume with `fsl.Reorient2Std`. -/
def intensityNormalisation (cfg : Config) (useBiasCorrected : Bool) (fs : FS) :
    FS × List Event :=
  let sid := cfg.subject_id
  let paths := normImagePaths cfg useBiasCorrected
  let histPath := subject_normalised_directory sid ++ "standard_histogram.npy"
  let outPaths := cfg.time_points_to_consider.map fun t =>
    normalised_file_format sid (currentImgStr t)
  let fs1 := outPaths.foldl insertFile (insertFile fs histPath)
  (fs1,
   paths.map Event.loadNifti ++ [Event.nyulFit, Event.saveHistogram histPath] ++
   outPaths.map Event.saveNifti ++ outPaths.map Event.reorient)

/-- The trace/filesystem side of `calcVariance(out_file)`: load every
configured normalised volume (named with `str(0) + str(t)`) and save the
variance map at `out_file`.  The in-memory numerics are `calcVarianceVol`. -/
def calcVarianceTrace (cfg : Config) (out_file : String) (fs : FS) :
    FS × List Event :=
  let paths := cfg.time_points_to_consider.map fun t =>
    normalised_file_format cfg.subject_id (currentImgStr t)
  (insertFile fs out_file, paths.map Event.loadNifti ++ [Event.saveNifti out_file])

/-- The orchestrator `runVariancePipeline(out_file)`:
`extractBrain()` → `correctBiasField('FSL')` →
`intensityNormalisation(useBiasCorrected=True)` → `calcVariance(out_file)`,
each invoked unconditionally; `none` when a stage crashes. -/
def runVariancePipeline (cfg : Config) (out_file : String) (fs : FS) :
    Option (FS × List Event) :=
  match extractBrain cfg fs with
  | none => none
  | some (fs1, tr1) =>
    match correctBiasField cfg "FSL" fs1 with
    | none => none
    | some (fs2, tr2) =>
      let r3 := intensityNormalisation cfg true fs2
      let r4 := calcVarianceTrace cfg out_file r3.1
      some (r4.1, tr1 ++ tr2 ++ r3.2 ++ r4.2)

/-! ### Non-linear registration prerequisite (spec-modelled) -/

/-- The error taxonomy of the spec relevant to registration. -/
inductive RegError where
  | missingPrerequisite
deriving DecidableEq

/-- Modelled from the spec: `Registration.nonlinearFslFNIRT`, invoked by
`applyBETMask` with the prior affine transform path, lives in the
repository's own `Registration` module, which is not under `src/`.  Per
spec §4.3, `nonlinearRegister(reference, target, priorAffineTransform)`
fails with a `MissingPrerequisite` error when no prior affine transform
exists for the (subject, time point) pair, performing no filesystem
writes; otherwise it writes the registered volume at the expected artifact
path. -/
def nonlinearRegister (fs : FS) (reference target out affinePath : String) :
    Option RegError × FS :=
  if affinePath ∈ fs then (none, insertFile fs out)
  else (some .missingPrerequisite, fs)

/-- The external-tool invocations of one complete `runVariancePipeline`
run: mask-propagation registrations and mask applications, one FAST per
time point, one Reorient2Std per time point.  They are determined by the
configuration alone — no stage consults the filesystem before invoking a
tool. -/
def pipelineExternalEvents (cfg : Config) : List Event :=
  (match cfg.time_points_to_consider.getLast? with
   | none => []
   | some template =>
     (cfg.time_points_to_consider.dropLast.map fun t =>
       applyBETMaskEvents cfg template t).join) ++
  fastEvents cfg ++
  (cfg.time_points_to_consider.map fun t =>
    Event.reorient (normalised_file_format cfg.subject_id (currentImgStr t)))

/-- Concrete fixture: a two-time-point subject processed with rigid FSL
registration. -/
def cfgW : Config := ⟨"S_1", [1, 2], "rigidfsl"⟩

/-- Concrete fixture: the variance-map output path. -/
def outW : String :=
  "/home/ela/Documents/B-RAPIDD/S_1/3D-FLAIR/variance_maps/var.nii.gz"

/-- Concrete fixture: the pipeline inputs (raw volumes, the template's
extracted brain and its mask) present before the first run. -/
def fsW : FS :=
  [nifti_file_format "S_1" (zfill2str 1), nifti_file_format "S_1" (zfill2str 2),
   brain_file_format "S_1" (zfill2str 2), brain_file_mask_format "S_1" (zfill2str 2)]

/-- Concrete fixture for the reorganisation example: the FAST outputs of
one time point — one `restore`, one `bias`, one `mixeltype`, one `seg` and
one `pve` file — sitting in the brain directory. -/
def ex8fs : FS :=
  [subject_brain_directory "B-RAP_0027" ++ "B-RAP_0027_01_D1_restore.nii.gz",
   subject_brain_directory "B-RAP_0027" ++ "B-RAP_0027_01_D1_bias.nii.gz",
   subject_brain_directory "B-RAP_0027" ++ "B-RAP_0027_01_D1_mixeltype.nii.gz",
   subject_brain_directory "B-RAP_0027" ++ "B-RAP_0027_01_D1_seg.nii.gz",
   subject_brain_directory "B-RAP_0027" ++ "B-RAP_0027_01_D1_pve_0.nii.gz"]

/-! ## Lemmas about the gathering loop -/

theorem gatherList_eq_map (i j k : ℕ) :
    ∀ imgs : List NArr,
      (∀ a ∈ imgs, i < a.shape.1 ∧ j < a.shape.2.1 ∧ k < a.shape.2.2) →
      gatherList imgs imgs.length i j k = some (imgs.map fun a => a.data i j k) := by
  intro imgs
  induction imgs with
  | nil => intro _; rfl
  | cons a rest ih =>
    intro h
    have ha := h a (by simp)
    have hrest := ih fun b hb => h b (by simp [hb])
    simp only [List.length_cons, List.map_cons, gatherList, NArr.at?, if_pos ha, hrest]

theorem gatherList_isSome (i j k : ℕ) :
    ∀ (count : ℕ) (imgs : List NArr),
      (∀ n, n < count → ∃ a, imgs.get? n = some a ∧ (a.at? i j k).isSome) →
      (gatherList imgs count i j k).isSome := by
  intro count
  induction count with
  | zero => intro imgs _; cases imgs <;> simp [gatherList]
  | succ n ih =>
    intro imgs h
    match imgs with
    | [] =>
      obtain ⟨a, ha, -⟩ := h 0 (by omega)
      simp at ha
    | a :: rest =>
      obtain ⟨a0, ha0, hsome⟩ := h 0 (by omega)
      have haa : a = a0 := by simpa using ha0
      subst haa
      obtain ⟨x, hx⟩ := Option.isSome_iff_exists.mp hsome
      have hrest := ih rest fun m hm => by
        obtain ⟨b, hb, hbs⟩ := h (m + 1) (by omega)
        exact ⟨b, by simpa using hb, hbs⟩
      obtain ⟨xs, hxs⟩ := Option.isSome_iff_exists.mp hrest
      simp [gatherList, hx, hxs]

theorem gatherList_none (i j k : ℕ) :
    ∀ (count : ℕ) (imgs : List NArr) (n : ℕ) (a : NArr),
      n < count → imgs.get? n = some a → a.at? i j k = none →
      gatherList imgs count i j k = none := by
  intro count
  induction count with
  | zero => intro imgs n a hn _ _; omega
  | succ m ih =>
    intro imgs n a hn hget hat
    match imgs with
    | [] => simp at hget
    | b :: rest =>
      cases n with
      | zero =>
        have hba : b = a := by simpa using hget
        subst hba
        simp [gatherList, hat]
      | succ n' =>
        have hrest := ih rest n' a (by omega) (by simpa using hget) hat
        cases hb : b.at? i j k <;> simp [gatherList, hb, hrest]

/-! ## C2: voxel-wise variance correctness -/

/-- C2.  For input volumes of identical voxel-grid shape, `calcVariance`
produces a volume of that same spatial shape whose value at every voxel is
the population variance (mean of squared deviations from the mean) of that
voxel's intensities across the configured time points; in particular, for
two volumes uniformly equal to 10 and 20, every voxel of the output is
25. -/
theorem calcVariance_correct :
    (∀ (s : ℕ × ℕ × ℕ) (numTps : ℕ) (images : List NiftiImage),
      images ≠ [] → numTps = images.length →
      (∀ img ∈ images, img.arr.shape = s) →
      ∃ out, calcVarianceVol numTps images = some out ∧
        out.arr.shape = s ∧
        ∀ i j k, i < s.1 → j < s.2.1 → k < s.2.2 →
          out.arr.data i j k =
            ((images.map fun im => im.arr.data i j k).map fun x =>
              (x - (images.map fun im => im.arr.data i j k).sum /
                ((images.map fun im => im.arr.data i j k).length : ℚ)) ^ 2).sum /
              ((images.map fun im => im.arr.data i j k).length : ℚ)) ∧
    (∀ (s : ℕ × ℕ × ℕ) (aff₁ aff₂ : Fin 4 → Fin 4 → ℚ) (out : NiftiImage),
      calcVarianceVol 2
          [⟨⟨s, fun _ _ _ => 10⟩, aff₁⟩, ⟨⟨s, fun _ _ _ => 20⟩, aff₂⟩] = some out →
      ∀ i j k, i < s.1 → j < s.2.1 → k < s.2.2 → out.arr.data i j k = 25) := by
  have main : ∀ (s : ℕ × ℕ × ℕ) (numTps : ℕ) (images : List NiftiImage),
      images ≠ [] → numTps = images.length →
      (∀ img ∈ images, img.arr.shape = s) →
      ∃ out, calcVarianceVol numTps images = some out ∧
        out.arr.shape = s ∧
        ∀ i j k, i < s.1 → j < s.2.1 → k < s.2.2 →
          out.arr.data i j k =
            ((images.map fun im => im.arr.data i j k).map fun x =>
              (x - (images.map fun im => im.arr.data i j k).sum /
                ((images.map fun im => im.arr.data i j k).length : ℚ)) ^ 2).sum /
              ((images.map fun im => im.arr.data i j k).length : ℚ) := by
    intro s numTps images hne hlen hsh
    match images with
    | img0 :: rest =>
      have harrs : (img0 :: rest).map NiftiImage.get_fdata =
          img0.arr :: rest.map NiftiImage.get_fdata := rfl
      have hbounds : ∀ i j k, i < s.1 → j < s.2.1 → k < s.2.2 →
          ∀ a ∈ (img0 :: rest).map NiftiImage.get_fdata,
            i < a.shape.1 ∧ j < a.shape.2.1 ∧ k < a.shape.2.2 := by
        intro i j k hi hj hk a ha
        obtain ⟨img, hmem, rfl⟩ := List.mem_map.mp ha
        have := hsh img hmem
        exact ⟨by simp [NiftiImage.get_fdata, this, hi],
               by simp [NiftiImage.get_fdata, this, hj],
               by simp [NiftiImage.get_fdata, this, hk]⟩
      have hgather : ∀ i j k, i < s.1 → j < s.2.1 → k < s.2.2 →
          gatherList ((img0 :: rest).map NiftiImage.get_fdata) numTps i j k =
            some ((img0 :: rest).map fun im => im.arr.data i j k) := by
        intro i j k hi hj hk
        have := gatherList_eq_map i j k ((img0 :: rest).map NiftiImage.get_fdata)
          (hbounds i j k hi hj hk)
        rw [List.length_map] at this
        rw [← hlen] at this
        rw [this, List.map_map]
        rfl
      have hshape0 : img0.arr.shape = s := hsh img0 (by simp)
      have hcond : ∀ i, i < img0.arr.shape.1 → ∀ j, j < img0.arr.shape.2.1 →
          ∀ k, k < img0.arr.shape.2.2 →
          (gatherList ((img0 :: rest).map NiftiImage.get_fdata) numTps i j k).isSome := by
        rw [hshape0]
        intro i hi j hj k hk
        rw [hgather i j k hi hj hk]
        rfl
      refine ⟨Nifti1Image
        ⟨img0.arr.shape, fun i j k =>
          npVar ((gatherList ((img0 :: rest).map NiftiImage.get_fdata) numTps i j k).getD [])⟩
        eye4, ?_, by simpa [Nifti1Image] using hshape0, ?_⟩
      · show calcVarianceVol numTps (img0 :: rest) = _
        rw [harrs] at hcond
        simp only [calcVarianceVol, List.map_cons, NiftiImage.get_fdata]
        rw [if_pos hcond]
      · intro i j k hi hj hk
        show npVar _ = _
        rw [hgather i j k hi hj hk]
        simp only [Option.getD_some, npVar]
  refine ⟨main, ?_⟩
  intro s aff₁ aff₂ out hout i j k hi hj hk
  obtain ⟨out', hout', -, hdata⟩ := main s 2
    [⟨⟨s, fun _ _ _ => 10⟩, aff₁⟩, ⟨⟨s, fun _ _ _ => 20⟩, aff₂⟩]
    (by simp) (by simp) (by simp)
  rw [hout'] at hout
  obtain rfl : out' = out := Option.some.inj hout
  have h25 := hdata i j k hi hj hk
  rw [h25]
  norm_num

/-- Witness for C2: two 1×1×1 volumes uniformly 10 and 20 give a variance
map that is 25 at the (single) voxel. -/
theorem calcVariance_correct_witness :
    ∃ out, calcVarianceVol 2
        [⟨⟨(1, 1, 1), fun _ _ _ => 10⟩, eye4⟩, ⟨⟨(1, 1, 1), fun _ _ _ => 20⟩, eye4⟩] =
        some out ∧ out.arr.shape = (1, 1, 1) ∧ out.arr.data 0 0 0 = 25 := by
  obtain ⟨out, hout, hsh, -⟩ := calcVariance_correct.1 (1, 1, 1) 2
    [⟨⟨(1, 1, 1), fun _ _ _ => 10⟩, eye4⟩, ⟨⟨(1, 1, 1), fun _ _ _ => 20⟩, eye4⟩]
    (by simp) (by simp) (by simp)
  exact ⟨out, hout, hsh,
    calcVariance_correct.2 (1, 1, 1) eye4 eye4 out hout 0 0 0
      (by norm_num) (by norm_num) (by norm_num)⟩

/-! ## C3: shape mismatch -/

/-- Counterexample to C3.  Two normalised volumes of differing voxel-grid
shapes — (1,1,1) and (2,1,1) — are supplied to `calcVariance`, yet no
error of any kind is raised and an output volume is produced (and hence
written): the claim that differing shapes raise a `ShapeMismatch` error
and produce no output file is false of the code, which performs no shape
check at all. -/
theorem shape_mismatch_counterexample :
    (⟨⟨(1, 1, 1), fun _ _ _ => 0⟩, eye4⟩ : NiftiImage).arr.shape ≠
      (⟨⟨(2, 1, 1), fun _ _ _ => 0⟩, eye4⟩ : NiftiImage).arr.shape ∧
    (calcVarianceVol 2
      [⟨⟨(1, 1, 1), fun _ _ _ => 0⟩, eye4⟩,
       ⟨⟨(2, 1, 1), fun _ _ _ => 0⟩, eye4⟩]).isSome = true := by
  exact ⟨by decide, by decide⟩

/-- C3 amended.  `calcVariance` performs no shape validation and raises no
`ShapeMismatch`: (a) whenever every supplied volume's grid contains the
first volume's entire grid, it silently computes and writes a variance map
even if the shapes differ; (b) it crashes with an out-of-bounds indexing
error (producing no output) whenever some consulted volume lacks a voxel
of the first volume's grid. -/
theorem calcVariance_no_shape_check :
    (∀ (numTps : ℕ) (img0 : NiftiImage) (rest : List NiftiImage),
      (∀ n, n < numTps → ∃ img, (img0 :: rest).get? n = some img ∧
        img0.arr.shape.1 ≤ img.arr.shape.1 ∧
        img0.arr.shape.2.1 ≤ img.arr.shape.2.1 ∧
        img0.arr.shape.2.2 ≤ img.arr.shape.2.2) →
      (calcVarianceVol numTps (img0 :: rest)).isSome) ∧
    (∀ (numTps : ℕ) (img0 : NiftiImage) (rest : List NiftiImage)
       (n : ℕ) (img : NiftiImage) (i j k : ℕ),
      n < numTps → (img0 :: rest).get? n = some img →
      i < img0.arr.shape.1 → j < img0.arr.shape.2.1 → k < img0.arr.shape.2.2 →
      img.arr.at? i j k = none →
      calcVarianceVol numTps (img0 :: rest) = none) := by
  constructor
  · intro numTps img0 rest h
    have hcond : ∀ i, i < img0.arr.shape.1 → ∀ j, j < img0.arr.shape.2.1 →
        ∀ k, k < img0.arr.shape.2.2 →
        (gatherList ((img0 :: rest).map NiftiImage.get_fdata) numTps i j k).isSome := by
      intro i hi j hj k hk
      apply gatherList_isSome
      intro n hn
      obtain ⟨img, hget, h1, h2, h3⟩ := h n hn
      refine ⟨img.arr, ?_, ?_⟩
      · rw [List.get?_map, hget]; rfl
      · have hb : i < img.arr.shape.1 ∧ j < img.arr.shape.2.1 ∧ k < img.arr.shape.2.2 :=
          ⟨by omega, by omega, by omega⟩
        simp [NArr.at?, hb]
    unfold calcVarianceVol
    show ((if _ then _ else none : Option NiftiImage)).isSome
    simp only [NiftiImage.get_fdata]
    rw [if_pos hcond]
    rfl
  · intro numTps img0 rest n img i j k hn hget hi hj hk hat
    have hnone := gatherList_none i j k numTps
      ((img0 :: rest).map NiftiImage.get_fdata) n img.arr hn
      (by rw [List.get?_map, hget]; rfl) hat
    have hcond : ¬ (∀ i', i' < img0.arr.shape.1 → ∀ j', j' < img0.arr.shape.2.1 →
        ∀ k', k' < img0.arr.shape.2.2 →
        (gatherList ((img0 :: rest).map NiftiImage.get_fdata) numTps i' j' k').isSome) := by
      intro hall
      have := hall i hi j hj k hk
      rw [hnone] at this
      simp at this
    unfold calcVarianceVol
    show (if _ then _ else none : Option NiftiImage) = none
    simp only [NiftiImage.get_fdata]
    rw [if_neg hcond]

/-- Witness for the amended C3: part (a) at the counterexample input
(shapes (1,1,1) and (2,1,1): output produced), part (b) at the swapped
input (shapes (2,1,1) and (1,1,1): crash, no output). -/
theorem calcVariance_no_shape_check_witness :
    (calcVarianceVol 2
      [⟨⟨(1, 1, 1), fun _ _ _ => 0⟩, eye4⟩,
       ⟨⟨(2, 1, 1), fun _ _ _ => 0⟩, eye4⟩]).isSome = true ∧
    calcVarianceVol 2
      [⟨⟨(2, 1, 1), fun _ _ _ => 0⟩, eye4⟩,
       ⟨⟨(1, 1, 1), fun _ _ _ => 0⟩, eye4⟩] = none := by
  constructor
  · refine calcVariance_no_shape_check.1 2 ⟨⟨(1, 1, 1), fun _ _ _ => 0⟩, eye4⟩
      [⟨⟨(2, 1, 1), fun _ _ _ => 0⟩, eye4⟩] ?_
    intro n hn
    interval_cases n
    · exact ⟨⟨⟨(1, 1, 1), fun _ _ _ => 0⟩, eye4⟩, rfl, by decide, by decide, by decide⟩
    · exact ⟨⟨⟨(2, 1, 1), fun _ _ _ => 0⟩, eye4⟩, rfl, by decide, by decide, by decide⟩
  · exact calcVariance_no_shape_check.2 2 ⟨⟨(2, 1, 1), fun _ _ _ => 0⟩, eye4⟩
      [⟨⟨(1, 1, 1), fun _ _ _ => 0⟩, eye4⟩] 1 ⟨⟨(1, 1, 1), fun _ _ _ => 0⟩, eye4⟩
      1 0 0 (by decide) rfl (by decide) (by decide) (by decide) rfl

/-! ## C4: non-linear registration prerequisite (spec-modelled) -/

/-- C4 (spec-modelled).  Invoking non-linear registration for a
(subject, time point) whose prior affine transform artifact
(`…_D1_flirt.mat`) does not exist raises `MissingPrerequisite` and leaves
the filesystem unchanged. -/
theorem nonlinear_missing_prerequisite (fs : FS) (sid : String) (extracted t : ℕ)
    (h : affine_file_path_format sid (zfill2str t) ∉ fs) :
    nonlinearRegister fs
      (brain_file_format sid (zfill2str extracted))
      (nifti_file_format sid (zfill2str t))
      (registered_whole_brain_format sid (zfill2str t))
      (affine_file_path_format sid (zfill2str t)) =
      (some RegError.missingPrerequisite, fs) := by
  simp [nonlinearRegister, h]

/-- Witness for C4 on an empty filesystem. -/
theorem nonlinear_missing_prerequisite_witness :
    nonlinearRegister []
      (brain_file_format "B-RAP_0027" (zfill2str 5))
      (nifti_file_format "B-RAP_0027" (zfill2str 1))
      (registered_whole_brain_format "B-RAP_0027" (zfill2str 1))
      (affine_file_path_format "B-RAP_0027" (zfill2str 1)) =
      (some RegError.missingPrerequisite, []) :=
  nonlinear_missing_prerequisite [] "B-RAP_0027" 5 1 (by simp)

/-! ## C6: time-point components of resolved paths -/

/-- Counterexample to C6.  For time point `t = 10` the stages that build
the component as `str(0) + str(t)` (bias correction, normalisation,
variance) resolve paths whose time-point component is the three-digit
string `"010"`, not a two-digit zero-padded component. -/
theorem timepoint_component_counterexample :
    currentImgStr 10 = "010" ∧
    ("010" : String).length = 3 ∧
    normImagePaths ⟨"B-RAP_0027", [10], "rigidfsl"⟩ true =
      [bias_restore_format "B-RAP_0027" "010"] := by
  refine ⟨rfl, rfl, rfl⟩

/-- C6 amended.  Path resolution is deterministic (each resolver is a pure
function of subject id and time string), and the time-point component is
two-digit zero-padded for `t` in 1..9 in every stage; the stages using
`str(t).zfill(2)` (mask propagation, DICOM lookup, registration artifacts)
keep a two-digit component for all `t` in 1..99, while the stages using
`str(0) + str(t)` (bias correction, normalisation, variance) produce a
three-digit component for `t` in 10..99. -/
theorem timepoint_component_amended :
    (∀ sid s : String, nifti_file_format sid s = nifti_file_format sid s ∧
      normalised_file_format sid s = normalised_file_format sid s) ∧
    ∀ t : ℕ, t < 100 → 1 ≤ t →
      (zfill2str t).length = 2 ∧
      (t < 10 → currentImgStr t = zfill2str t) ∧
      (10 ≤ t → (currentImgStr t).length = 3) := by
  refine ⟨fun _ _ => ⟨rfl, rfl⟩, ?_⟩
  decide

/-- Witness for the amended C6 at `t = 7` and `t = 42`. -/
theorem timepoint_component_amended_witness :
    (zfill2str 7).length = 2 ∧ currentImgStr 7 = zfill2str 7 ∧
    (zfill2str 42).length = 2 ∧ (currentImgStr 42).length = 3 := by
  refine ⟨(timepoint_component_amended.2 7 (by norm_num) (by norm_num)).1,
    (timepoint_component_amended.2 7 (by norm_num) (by norm_num)).2.1 (by norm_num),
    (timepoint_component_amended.2 42 (by norm_num) (by norm_num)).1,
    (timepoint_component_amended.2 42 (by norm_num) (by norm_num)).2.2 (by norm_num)⟩

/-! ## C5: mask propagation never re-processes the template -/

theorem extractLoop_trace (cfg : Config) (template : ℕ) :
    ∀ (ts : List ℕ) (fs : FS) (tr : List Event),
      (extractLoop cfg template ts fs tr).2 =
        tr ++ (ts.map fun t => applyBETMaskEvents cfg template t).join := by
  intro ts
  induction ts with
  | nil => intro fs tr; simp [extractLoop]
  | cons t rest ih =>
    intro fs tr
    simp [extractLoop, applyBETMask, ih, List.append_assoc]

/-- C5.  For a non-empty, chronologically ordered list of configured time
points, `extractBrain` takes the last element as the template and invokes
`applyBETMask` exactly once for each other configured time point — and
never for the template itself; its trace is the concatenation of those
calls' events. -/
theorem mask_propagation_skips_template (cfg : Config)
    (hne : cfg.time_points_to_consider ≠ [])
    (hsort : cfg.time_points_to_consider.Chain' (· < ·)) :
    ∃ template calls,
      cfg.time_points_to_consider.getLast? = some template ∧
      extractBrainCalls cfg = some calls ∧
      calls.length = cfg.time_points_to_consider.length - 1 ∧
      (∀ c ∈ calls, c.1 = template ∧ c.2 ∈ cfg.time_points_to_consider ∧
        c.2 ≠ template) ∧
      (∀ t ∈ cfg.time_points_to_consider, t ≠ template →
        (calls.map Prod.snd).count t = 1) ∧
      (template, template) ∉ calls ∧
      (∀ fs, ∃ r, extractBrain cfg fs = some r ∧
        r.2 = (calls.map fun c => applyBETMaskEvents cfg c.1 c.2).join) := by
  set tps := cfg.time_points_to_consider with htps
  have hlast : tps.getLast? = some (tps.getLast hne) := List.getLast?_eq_getLast tps hne
  set template := tps.getLast hne with htem
  set d := tps.dropLast with hd
  have hsplit : d ++ [template] = tps := List.dropLast_append_getLast hne
  have hpair : tps.Pairwise (· < ·) := List.chain'_iff_pairwise.mp hsort
  have hnodup : tps.Nodup := hpair.imp fun hab => Nat.ne_of_lt hab
  have hnd : d.Nodup ∧ template ∉ d := by
    rw [← hsplit] at hnodup
    obtain ⟨h1, -, h3⟩ := List.nodup_append.mp hnodup
    exact ⟨h1, fun hmem => h3 hmem (List.mem_singleton_self template)⟩
  have hmemd : ∀ t ∈ tps, t ≠ template → t ∈ d := by
    intro t ht hne'
    rw [← hsplit] at ht
    rcases List.mem_append.mp ht with h | h
    · exact h
    · exact absurd (List.mem_singleton.mp h) hne'
  refine ⟨template, d.map fun t => (template, t), hlast, ?_, ?_, ?_, ?_, ?_, ?_⟩
  · simp only [extractBrainCalls, ← htps, hlast]
  · rw [List.length_map, hd, List.length_dropLast]
  · intro c hc
    obtain ⟨t, ht, rfl⟩ := List.mem_map.mp hc
    refine ⟨rfl, ?_, ?_⟩
    · rw [← hsplit]; exact List.mem_append.mpr (Or.inl ht)
    · intro heq
      simp only at heq
      exact hnd.2 (heq ▸ ht)
  · intro t ht hne'
    have : (List.map Prod.snd (d.map fun t => (template, t))) = d := by
      rw [List.map_map]; simp [Function.comp]
    rw [this]
    exact List.count_eq_one_of_mem hnd.1 (hmemd t ht hne')
  · intro hmem
    obtain ⟨t, ht, heq⟩ := List.mem_map.mp hmem
    have : t = template := congrArg Prod.snd heq
    exact hnd.2 (this ▸ ht)
  · intro fs
    refine ⟨extractLoop cfg template d fs [], ?_, ?_⟩
    · simp [extractBrain, ← htps, hlast]
    · rw [extractLoop_trace, List.map_map]
      rfl

/-- Witness for C5 at `timePointsToConsider = [1,2,3,4,5]`: the template
is 5 and there are exactly 4 propagation calls, for time points 1–4. -/
theorem mask_propagation_skips_template_witness :
    ∃ template calls,
      (⟨"B-RAP_0100", [1, 2, 3, 4, 5], "nonlinearfsl"⟩ :
          Config).time_points_to_consider.getLast? = some template ∧
      extractBrainCalls ⟨"B-RAP_0100", [1, 2, 3, 4, 5], "nonlinearfsl"⟩ = some calls ∧
      calls.length = 4 ∧
      (∀ c ∈ calls, c.1 = template ∧
        c.2 ∈ (⟨"B-RAP_0100", [1, 2, 3, 4, 5], "nonlinearfsl"⟩ :
          Config).time_points_to_consider ∧ c.2 ≠ template) ∧
      (template, template) ∉ calls := by
  obtain ⟨template, calls, h1, h2, h3, h4, -, h6, -⟩ :=
    mask_propagation_skips_template ⟨"B-RAP_0100", [1, 2, 3, 4, 5], "nonlinearfsl"⟩
      (by decide) (by norm_num [List.chain'_cons, List.chain'_singleton])
  exact ⟨template, calls, h1, h2, h3, h4, h6⟩

/-! ## C7: orchestrator stage order -/

/-- C7.  Every completed `runVariancePipeline` run decomposes as exactly
the four stages, invoked unconditionally and in order: `extractBrain`,
then `correctBiasField('FSL')`, then
`intensityNormalisation(useBiasCorrected=True)`, then
`calcVariance(out_file)`; the run's trace is the concatenation of the
stage traces in that order. -/
theorem orchestrator_stage_order (cfg : Config) (out_file : String) (fs : FS)
    (r : FS × List Event) (h : runVariancePipeline cfg out_file fs = some r) :
    ∃ fs1 tr1 fs2 tr2,
      extractBrain cfg fs = some (fs1, tr1) ∧
      correctBiasField cfg "FSL" fs1 = some (fs2, tr2) ∧
      r = ((calcVarianceTrace cfg out_file (intensityNormalisation cfg true fs2).1).1,
        tr1 ++ tr2 ++ (intensityNormalisation cfg true fs2).2 ++
          (calcVarianceTrace cfg out_file (intensityNormalisation cfg true fs2).1).2) := by
  simp only [runVariancePipeline] at h
  split at h
  · exact absurd h (by simp)
  · next fs1 tr1 he =>
    split at h
    · exact absurd h (by simp)
    · next fs2 tr2 hb =>
      exact ⟨fs1, tr1, fs2, tr2, he, hb, (Option.some.inj h).symm⟩

/-- Witness for C7: the concrete two-time-point fixture completes and
decomposes into the four stages in order. -/
theorem orchestrator_stage_order_witness :
    ∃ r, runVariancePipeline cfgW outW fsW = some r ∧
      ∃ fs1 tr1 fs2 tr2,
        extractBrain cfgW fsW = some (fs1, tr1) ∧
        correctBiasField cfgW "FSL" fs1 = some (fs2, tr2) ∧
        r = ((calcVarianceTrace cfgW outW (intensityNormalisation cfgW true fs2).1).1,
          tr1 ++ tr2 ++ (intensityNormalisation cfgW true fs2).2 ++
            (calcVarianceTrace cfgW outW (intensityNormalisation cfgW true fs2).1).2) := by
  have hs : (runVariancePipeline cfgW outW fsW).isSome := by rfl
  exact ⟨(runVariancePipeline cfgW outW fsW).get hs, (Option.some_get hs).symm,
    orchestrator_stage_order cfgW outW fsW _ (Option.some_get hs).symm⟩

/-! ## C1: no skip-on-exists inside the variance pipeline -/

theorem applyBETMaskEvents_external (cfg : Config) (e t : ℕ) :
    (applyBETMaskEvents cfg e t).filter Event.isExternal =
      applyBETMaskEvents cfg e t := by
  rw [List.filter_eq_self]
  intro a ha
  simp only [applyBETMaskEvents, List.append_assoc, List.mem_append] at ha
  rcases ha with h | h | h | h
  · split at h
    · obtain rfl := List.mem_singleton.mp h; rfl
    · simp at h
  · split at h
    · obtain rfl := List.mem_singleton.mp h; rfl
    · simp at h
  · split at h
    · obtain rfl := List.mem_singleton.mp h; rfl
    · simp at h
  · obtain rfl := List.mem_singleton.mp h; rfl

theorem join_applyBETMask_external (cfg : Config) (template : ℕ) (ts : List ℕ) :
    ((ts.map fun t => applyBETMaskEvents cfg template t).join).filter Event.isExternal =
      (ts.map fun t => applyBETMaskEvents cfg template t).join := by
  induction ts with
  | nil => rfl
  | cons t rest ih =>
    simp only [List.map_cons, List.join_cons, List.filter_append, ih,
      applyBETMaskEvents_external]

theorem filter_map_external_nil {α : Type} (f : α → Event)
    (hf : ∀ a, (f a).isExternal = false) (l : List α) :
    (l.map f).filter Event.isExternal = [] := by
  rw [List.filter_eq_nil_iff]
  intro e he
  obtain ⟨x, -, rfl⟩ := List.mem_map.mp he
  simp [hf x]

theorem filter_map_external_self {α : Type} (f : α → Event)
    (hf : ∀ a, (f a).isExternal = true) (l : List α) :
    (l.map f).filter Event.isExternal = l.map f := by
  rw [List.filter_eq_self]
  intro e he
  obtain ⟨x, -, rfl⟩ := List.mem_map.mp he
  exact hf x

theorem reorgFileStep_trace (sid : String) (acc acc1 : FS × List Event) (n : String)
    (h : reorgFileStep sid acc n = some acc1) :
    acc1.2.filter Event.isExternal = acc.2.filter Event.isExternal := by
  unfold reorgFileStep at h
  cases hcla : classify sid n with
  | none => rw [hcla] at h; exact absurd h (by simp)
  | some a =>
    rw [hcla] at h
    cases a with
    | moveToTarget =>
      obtain rfl := Option.some.inj h
      simp [List.filter_append, Event.isExternal]
    | moveToFields =>
      obtain rfl := Option.some.inj h
      simp [List.filter_append, Event.isExternal]
    | delete =>
      obtain rfl := Option.some.inj h
      simp [List.filter_append, Event.isExternal]
    | keep => obtain rfl := Option.some.inj h; rfl

theorem reorgLoop_trace_filter (sid : String) :
    ∀ (l : List String) (acc acc' : FS × List Event),
      reorgLoop sid l acc = some acc' →
      acc'.2.filter Event.isExternal = acc.2.filter Event.isExternal := by
  intro l
  induction l with
  | nil => intro acc acc' h; obtain rfl := Option.some.inj h; rfl
  | cons n rest ih =>
    intro acc acc' h
    rw [reorgLoop] at h
    cases hstep : reorgFileStep sid acc n with
    | none => rw [hstep] at h; exact absurd h (by simp)
    | some acc1 =>
      rw [hstep] at h
      rw [ih acc1 acc' h, reorgFileStep_trace sid acc acc1 n hstep]

/-- The external-tool invocations of a completed run are exactly
`pipelineExternalEvents cfg` — a function of the configuration alone. -/
theorem runVariancePipeline_external (cfg : Config) (out : String) (fs : FS)
    (r : FS × List Event) (h : runVariancePipeline cfg out fs = some r) :
    r.2.filter Event.isExternal = pipelineExternalEvents cfg := by
  obtain ⟨fs1, tr1, fs2, tr2, he, hb, hr⟩ := orchestrator_stage_order cfg out fs r h
  have htr : r.2 = tr1 ++ tr2 ++ (intensityNormalisation cfg true fs2).2 ++
      (calcVarianceTrace cfg out (intensityNormalisation cfg true fs2).1).2 :=
    congrArg Prod.snd hr
  rw [htr]
  simp only [List.filter_append]
  unfold pipelineExternalEvents
  cases hg : cfg.time_points_to_consider.getLast? with
  | none =>
    unfold extractBrain at he
    rw [hg] at he
    exact absurd he (by simp)
  | some template =>
    have h1 : tr1.filter Event.isExternal =
        (cfg.time_points_to_consider.dropLast.map fun t =>
          applyBETMaskEvents cfg template t).join := by
      unfold extractBrain at he
      rw [hg] at he
      have htr1 : (extractLoop cfg template
          cfg.time_points_to_consider.dropLast fs []).2 = tr1 :=
        congrArg Prod.snd (Option.some.inj he)
      rw [← htr1, extractLoop_trace, List.nil_append]
      exact join_applyBETMask_external cfg template _
    have h2 : tr2.filter Event.isExternal = fastEvents cfg := by
      unfold correctBiasField at hb
      rw [if_pos rfl] at hb
      rw [reorgLoop_trace_filter cfg.subject_id _ _ _ hb]
      exact filter_map_external_self
        (fun t => Event.fastSeg (brain_file_format cfg.subject_id (currentImgStr t)))
        (fun _ => rfl) _
    have h3 : (intensityNormalisation cfg true fs2).2.filter Event.isExternal =
        cfg.time_points_to_consider.map fun t =>
          Event.reorient (normalised_file_format cfg.subject_id (currentImgStr t)) := by
      unfold intensityNormalisation
      simp only [List.filter_append]
      rw [filter_map_external_nil Event.loadNifti (fun _ => rfl),
          filter_map_external_nil Event.saveNifti (fun _ => rfl),
          filter_map_external_self Event.reorient (fun _ => rfl)]
      simp [Event.isExternal, List.map_map]
    have h4 : (calcVarianceTrace cfg out
        (intensityNormalisation cfg true fs2).1).2.filter Event.isExternal = [] := by
      unfold calcVarianceTrace
      simp only [List.filter_append]
      rw [filter_map_external_nil Event.loadNifti (fun _ => rfl)]
      simp [Event.isExternal]
    rw [h1, h2, h3, h4, List.append_nil]

/-- Counterexample to C1.  Starting from a filesystem holding the pipeline
inputs, one complete run writes every artifact of every stage; running the
orchestrator again on the resulting filesystem still performs 6
external-tool invocations (registration, mask application, two FAST runs,
two reorientations) — not zero.  No stage of `runVariancePipeline` checks
whether its target artifact exists. -/
theorem second_run_not_zero_external :
    ((runVariancePipeline cfgW outW fsW).bind fun r =>
        runVariancePipeline cfgW outW r.1).map
      (fun r => (r.2.filter Event.isExternal).length) = some 6 ∧
    (some 6 : Option ℕ) ≠ some 0 :=
  ⟨rfl, by decide⟩

/-- C1 amended.  No stage invoked by `runVariancePipeline` checks artifact
existence: any two completed runs of the orchestrator — in particular a
second run over the artifacts produced by a first — perform exactly the
same external-tool invocations, and (for a non-empty time-point list)
that set is non-empty rather than zero. -/
theorem second_run_repeats_external_calls (cfg : Config) (out : String)
    (fs fs' : FS) (r r' : FS × List Event)
    (h : runVariancePipeline cfg out fs = some r)
    (h' : runVariancePipeline cfg out fs' = some r') :
    r.2.filter Event.isExternal = r'.2.filter Event.isExternal ∧
    (cfg.time_points_to_consider ≠ [] → r.2.filter Event.isExternal ≠ []) := by
  constructor
  · rw [runVariancePipeline_external cfg out fs r h,
        runVariancePipeline_external cfg out fs' r' h']
  · intro hne hnil
    rw [runVariancePipeline_external cfg out fs r h] at hnil
    unfold pipelineExternalEvents at hnil
    obtain ⟨h12, -⟩ := List.append_eq_nil.mp hnil
    obtain ⟨-, h2⟩ := List.append_eq_nil.mp h12
    apply hne
    have : cfg.time_points_to_consider.map (fun t =>
        Event.fastSeg (brain_file_format cfg.subject_id (currentImgStr t))) = [] := by
      simpa [fastEvents] using h2
    simpa using this

/-- Witness for the amended C1: the two-time-point fixture's completed run
has a non-empty set of external-tool invocations. -/
theorem second_run_repeats_external_calls_witness :
    ∃ r, runVariancePipeline cfgW outW fsW = some r ∧
      r.2.filter Event.isExternal ≠ [] := by
  have hs : (runVariancePipeline cfgW outW fsW).isSome := by rfl
  obtain ⟨r, hr⟩ := Option.isSome_iff_exists.mp hs
  exact ⟨r, hr,
    (second_run_repeats_external_calls cfgW outW fsW fsW r r hr hr).2 (by decide)⟩

/-! ## C8: bias-correction file reorganisation -/

theorem mem_insertFile_iff (fs : FS) (p q : String) :
    q ∈ insertFile fs p ↔ q ∈ fs ∨ q = p := by
  unfold insertFile
  split
  · next hp =>
    constructor
    · exact Or.inl
    · rintro (h | rfl)
      · exact h
      · exact hp
  · simp [List.mem_append]

theorem append_left_cancel_str {a m m' : String} (h : a ++ m = a ++ m') : m = m' := by
  apply String.ext
  have h2 := congrArg String.data h
  simp only [String.data_append] at h2
  exact List.append_cancel_left h2

theorem bias_ne_brain (sid m m' : String) :
    subject_bias_directory sid ++ m ≠ subject_brain_directory sid ++ m' := by
  intro h
  unfold subject_bias_directory subject_brain_directory at h
  rw [String.append_assoc, String.append_assoc] at h
  have h3 := congrArg String.data (append_left_cancel_str h)
  simp only [String.data_append] at h3
  simp at h3

theorem fields_eq_bias (sid m : String) :
    subject_bias_fields_directory sid ++ m =
      subject_bias_directory sid ++ ("fields/" ++ m) := by
  unfold subject_bias_fields_directory
  rw [String.append_assoc]

theorem fields_ne_brain (sid m m' : String) :
    subject_bias_fields_directory sid ++ m ≠ subject_brain_directory sid ++ m' := by
  rw [fields_eq_bias]
  exact bias_ne_brain sid _ m'

theorem not_mem_of_contains_false {l : List Char} {c : Char}
    (h : l.contains c = false) : c ∉ l := by
  intro hm
  rw [List.contains_eq_any_beq] at h
  simp at h
  exact h c hm rfl

theorem name_ne_fields_append {name m : String}
    (hns : name.data.contains '/' = false) : name ≠ "fields/" ++ m := by
  intro h
  apply not_mem_of_contains_false hns
  rw [h, String.data_append]
  exact List.mem_append.mpr (Or.inl (by decide))

theorem bias_name_ne_fields {sid name m : String}
    (hns : name.data.contains '/' = false) :
    subject_bias_directory sid ++ name ≠ subject_bias_fields_directory sid ++ m := by
  rw [fields_eq_bias]
  intro h
  exact name_ne_fields_append hns (append_left_cancel_str h)

theorem fields_name_ne_bias {sid name m : String}
    (hm : m.data.contains '/' = false) :
    subject_bias_fields_directory sid ++ name ≠ subject_bias_directory sid ++ m := by
  rw [fields_eq_bias]
  intro h
  exact name_ne_fields_append hm (append_left_cancel_str h).symm

theorem brainDirListing_no_slash (sid : String) (fs : FS) (name : String)
    (h : name ∈ brainDirListing sid fs) : name.data.contains '/' = false := by
  unfold brainDirListing at h
  obtain ⟨p, -, hp⟩ := List.mem_filterMap.mp h
  split at hp
  · split at hp
    · exact absurd hp (by simp)
    · next hsl =>
      obtain rfl := Option.some.inj hp
      simpa using hsl
  · exact absurd hp (by simp)

/-- Existing entries stay in the filesystem across the reorganisation loop
unless they are a brain-directory entry that some listing item classifies
away from `keep`. -/
theorem reorgLoop_mem_preserved (sid : String) :
    ∀ (l : List String) (acc acc' : FS × List Event) (q : String),
      reorgLoop sid l acc = some acc' → q ∈ acc.1 →
      (∀ m ∈ l, q = subject_brain_directory sid ++ m →
        classify sid m = some FileAction.keep) →
      q ∈ acc'.1 := by
  intro l
  induction l with
  | nil =>
    intro acc acc' q h hq _
    obtain rfl := Option.some.inj h
    exact hq
  | cons n rest ih =>
    intro acc acc' q h hq hcl
    rw [reorgLoop] at h
    cases hstep : reorgFileStep sid acc n with
    | none => rw [hstep] at h; exact absurd h (by simp)
    | some acc1 =>
      rw [hstep] at h
      refine ih acc1 acc' q h ?_ fun m hm hq' => hcl m (List.mem_cons_of_mem _ hm) hq'
      unfold reorgFileStep at hstep
      cases hcla : classify sid n with
      | none => rw [hcla] at hstep; exact absurd hstep (by simp)
      | some a =>
        rw [hcla] at hstep
        cases a with
        | keep => obtain rfl := Option.some.inj hstep; exact hq
        | moveToTarget =>
          obtain rfl := Option.some.inj hstep
          have hqn : q ≠ subject_brain_directory sid ++ n := by
            intro hq2
            have := hcl n (List.mem_cons_self n rest) hq2
            rw [hcla] at this
            exact absurd (Option.some.inj this) (by simp)
          exact (mem_insertFile_iff _ _ _).mpr
            (Or.inl (List.mem_filter.mpr ⟨hq, by simpa using hqn⟩))
        | moveToFields =>
          obtain rfl := Option.some.inj hstep
          have hqn : q ≠ subject_brain_directory sid ++ n := by
            intro hq2
            have := hcl n (List.mem_cons_self n rest) hq2
            rw [hcla] at this
            exact absurd (Option.some.inj this) (by simp)
          exact (mem_insertFile_iff _ _ _).mpr
            (Or.inl (List.mem_filter.mpr ⟨hq, by simpa using hqn⟩))
        | delete =>
          obtain rfl := Option.some.inj hstep
          have hqn : q ≠ subject_brain_directory sid ++ n := by
            intro hq2
            have := hcl n (List.mem_cons_self n rest) hq2
            rw [hcla] at this
            exact absurd (Option.some.inj this) (by simp)
          exact List.mem_filter.mpr ⟨hq, by simpa using hqn⟩

/-- Absent entries stay absent across the reorganisation loop unless they
are the bias-directory (resp. fields-directory) destination of a listing
item classified `restore` (resp. `bias`). -/
theorem reorgLoop_not_mem_preserved (sid : String) :
    ∀ (l : List String) (acc acc' : FS × List Event) (q : String),
      reorgLoop sid l acc = some acc' → q ∉ acc.1 →
      (∀ m ∈ l,
        (q = subject_bias_directory sid ++ m →
          classify sid m ≠ some FileAction.moveToTarget) ∧
        (q = subject_bias_fields_directory sid ++ m →
          classify sid m ≠ some FileAction.moveToFields)) →
      q ∉ acc'.1 := by
  intro l
  induction l with
  | nil =>
    intro acc acc' q h hq _
    obtain rfl := Option.some.inj h
    exact hq
  | cons n rest ih =>
    intro acc acc' q h hq hcl
    rw [reorgLoop] at h
    cases hstep : reorgFileStep sid acc n with
    | none => rw [hstep] at h; exact absurd h (by simp)
    | some acc1 =>
      rw [hstep] at h
      refine ih acc1 acc' q h ?_ fun m hm => hcl m (List.mem_cons_of_mem _ hm)
      unfold reorgFileStep at hstep
      cases hcla : classify sid n with
      | none => rw [hcla] at hstep; exact absurd hstep (by simp)
      | some a =>
        rw [hcla] at hstep
        cases a with
        | keep => obtain rfl := Option.some.inj hstep; exact hq
        | moveToTarget =>
          obtain rfl := Option.some.inj hstep
          intro hmem
          rcases (mem_insertFile_iff _ _ _).mp hmem with hf | he
          · exact hq (List.mem_filter.mp hf).1
          · exact (hcl n (List.mem_cons_self n rest)).1 he (hcla ▸ rfl)
        | moveToFields =>
          obtain rfl := Option.some.inj hstep
          intro hmem
          rcases (mem_insertFile_iff _ _ _).mp hmem with hf | he
          · exact hq (List.mem_filter.mp hf).1
          · exact (hcl n (List.mem_cons_self n rest)).2 he (hcla ▸ rfl)
        | delete =>
          obtain rfl := Option.some.inj hstep
          intro hmem
          exact hq (List.mem_filter.mp hmem).1

/-- A listing entry classified away from `keep` has its brain-directory
file removed by the loop, and it never reappears. -/
theorem reorgLoop_removed (sid : String) :
    ∀ (l : List String) (acc acc' : FS × List Event) (name : String)
      (a : FileAction),
      reorgLoop sid l acc = some acc' → name ∈ l →
      classify sid name = some a → a ≠ FileAction.keep →
      (subject_brain_directory sid ++ name) ∉ acc'.1 := by
  intro l
  induction l with
  | nil => intro _ _ _ _ _ hmem; simp at hmem
  | cons n rest ih =>
    intro acc acc' name a h hmem hcl hane
    rw [reorgLoop] at h
    cases hstep : reorgFileStep sid acc n with
    | none => rw [hstep] at h; exact absurd h (by simp)
    | some acc1 =>
      rw [hstep] at h
      by_cases hn : name = n
      · subst hn
        unfold reorgFileStep at hstep
        rw [hcl] at hstep
        have hout : (subject_brain_directory sid ++ name) ∉ acc1.1 := by
          cases a with
          | keep => exact absurd rfl hane
          | moveToTarget =>
            obtain rfl := Option.some.inj hstep
            intro hmem1
            rcases (mem_insertFile_iff _ _ _).mp hmem1 with hf | he
            · have hcontra := (List.mem_filter.mp hf).2
              simp at hcontra
            · exact bias_ne_brain sid name name he.symm
          | moveToFields =>
            obtain rfl := Option.some.inj hstep
            intro hmem1
            rcases (mem_insertFile_iff _ _ _).mp hmem1 with hf | he
            · have hcontra := (List.mem_filter.mp hf).2
              simp at hcontra
            · exact fields_ne_brain sid name name he.symm
          | delete =>
            obtain rfl := Option.some.inj hstep
            intro hmem1
            have hcontra := (List.mem_filter.mp hmem1).2
            simp at hcontra
        refine reorgLoop_not_mem_preserved sid rest acc1 acc' _ h hout ?_
        intro m _
        exact ⟨fun he => (bias_ne_brain sid m name he.symm).elim,
               fun he => (fields_ne_brain sid m name he.symm).elim⟩
      · have hmem' : name ∈ rest := by
          rcases List.mem_cons.mp hmem with h1 | h1
          · exact absurd h1 hn
          · exact h1
        exact ih acc1 acc' name a h hmem' hcl hane

/-- A listing entry classified `restore` ends up in the bias-corrected
directory. -/
theorem reorgLoop_inserted_target (sid : String) :
    ∀ (l : List String) (acc acc' : FS × List Event) (name : String),
      reorgLoop sid l acc = some acc' → name ∈ l →
      classify sid name = some FileAction.moveToTarget →
      (subject_bias_directory sid ++ name) ∈ acc'.1 := by
  intro l
  induction l with
  | nil => intro _ _ _ _ hmem; simp at hmem
  | cons n rest ih =>
    intro acc acc' name h hmem hcl
    rw [reorgLoop] at h
    cases hstep : reorgFileStep sid acc n with
    | none => rw [hstep] at h; exact absurd h (by simp)
    | some acc1 =>
      rw [hstep] at h
      by_cases hn : name = n
      · subst hn
        unfold reorgFileStep at hstep
        rw [hcl] at hstep
        obtain rfl := Option.some.inj hstep
        refine reorgLoop_mem_preserved sid rest _ acc' _ h
          ((mem_insertFile_iff _ _ _).mpr (Or.inr rfl)) ?_
        intro m _ hq
        exact absurd hq (bias_ne_brain sid name m)
      · have hmem' : name ∈ rest := by
          rcases List.mem_cons.mp hmem with h1 | h1
          · exact absurd h1 hn
          · exact h1
        exact ih acc1 acc' name h hmem' hcl

/-- A listing entry classified `bias` ends up in the fields
subdirectory. -/
theorem reorgLoop_inserted_fields (sid : String) :
    ∀ (l : List String) (acc acc' : FS × List Event) (name : String),
      reorgLoop sid l acc = some acc' → name ∈ l →
      classify sid name = some FileAction.moveToFields →
      (subject_bias_fields_directory sid ++ name) ∈ acc'.1 := by
  intro l
  induction l with
  | nil => intro _ _ _ _ hmem; simp at hmem
  | cons n rest ih =>
    intro acc acc' name h hmem hcl
    rw [reorgLoop] at h
    cases hstep : reorgFileStep sid acc n with
    | none => rw [hstep] at h; exact absurd h (by simp)
    | some acc1 =>
      rw [hstep] at h
      by_cases hn : name = n
      · subst hn
        unfold reorgFileStep at hstep
        rw [hcl] at hstep
        obtain rfl := Option.some.inj hstep
        refine reorgLoop_mem_preserved sid rest _ acc' _ h
          ((mem_insertFile_iff _ _ _).mpr (Or.inr rfl)) ?_
        intro m _ hq
        exact absurd hq (fields_ne_brain sid name m)
      · have hmem' : name ∈ rest := by
          rcases List.mem_cons.mp hmem with h1 | h1
          · exact absurd h1 hn
          · exact h1
        exact ih acc1 acc' name h hmem' hcl

/-- Counterexample to C8.  The file `S_pve_restore.nii.gz` has `pve` in
its base name, yet the reorganisation moves it to the bias-corrected
directory instead of deleting it: the `restore`-suffix branch takes
precedence, so "deletes every pve file" is false as stated. -/
theorem pve_file_moved_not_deleted :
    listHasInfix "pve".data (pythonBaseName "S_pve_restore.nii.gz".data) = true ∧
    classify "S" "S_pve_restore.nii.gz" = some FileAction.moveToTarget ∧
    (correctBiasField ⟨"S", [], "rigidfsl"⟩ "FSL"
        [subject_brain_directory "S" ++ "S_pve_restore.nii.gz"]).map Prod.fst =
      some [subject_bias_directory "S" ++ "S_pve_restore.nii.gz"] := by
  exact ⟨rfl, rfl, rfl⟩

/-- C8 amended.  The reorganisation classifies each subject-prefixed file
by the first matching rule, in precedence order `restore`, `bias`,
`mixeltype`, `seg`, `pve`-in-base-name: every `restore`-suffixed file
moves to the bias-corrected directory (even when its base name contains
`pve`), every `bias`-suffixed file moves to the fields subdirectory, every
`mixeltype`/`seg`-suffixed file and every remaining file with `pve` in its
base name is deleted, and all other files stay; on the spec's example with
one file of each kind, exactly one file ends in the bias-corrected
directory, exactly one in the fields subdirectory, and no
mixeltype/seg/pve file remains anywhere. -/
theorem bias_reorganisation (cfg : Config) (fs fs' : FS) (tr' : List Event)
    (h : correctBiasField cfg "FSL" fs = some (fs', tr')) :
    (∀ name ∈ brainDirListing cfg.subject_id fs,
      (classify cfg.subject_id name = some FileAction.moveToTarget →
        (subject_bias_directory cfg.subject_id ++ name) ∈ fs' ∧
        (subject_brain_directory cfg.subject_id ++ name) ∉ fs') ∧
      (classify cfg.subject_id name = some FileAction.moveToFields →
        (subject_bias_fields_directory cfg.subject_id ++ name) ∈ fs' ∧
        (subject_brain_directory cfg.subject_id ++ name) ∉ fs') ∧
      (classify cfg.subject_id name = some FileAction.delete →
        (subject_brain_directory cfg.subject_id ++ name) ∉ fs' ∧
        ((subject_bias_directory cfg.subject_id ++ name) ∉ fs →
          (subject_bias_directory cfg.subject_id ++ name) ∉ fs') ∧
        ((subject_bias_fields_directory cfg.subject_id ++ name) ∉ fs →
          (subject_bias_fields_directory cfg.subject_id ++ name) ∉ fs')) ∧
      (classify cfg.subject_id name = some FileAction.keep →
        (subject_brain_directory cfg.subject_id ++ name) ∈ fs →
        (subject_brain_directory cfg.subject_id ++ name) ∈ fs')) ∧
    (correctBiasField ⟨"B-RAP_0027", [], "rigidfsl"⟩ "FSL" ex8fs).map Prod.fst =
      some [subject_bias_directory "B-RAP_0027" ++ "B-RAP_0027_01_D1_restore.nii.gz",
            subject_bias_fields_directory "B-RAP_0027" ++ "B-RAP_0027_01_D1_bias.nii.gz"] := by
  have hloop : reorgLoop cfg.subject_id (brainDirListing cfg.subject_id fs)
      (fs, fastEvents cfg) = some (fs', tr') := by
    unfold correctBiasField at h
    simpa using h
  refine ⟨?_, rfl⟩
  intro name hname
  have hns := brainDirListing_no_slash cfg.subject_id fs name hname
  refine ⟨?_, ?_, ?_, ?_⟩
  · intro hcl
    exact ⟨reorgLoop_inserted_target _ _ _ _ _ hloop hname hcl,
           reorgLoop_removed _ _ _ _ _ _ hloop hname hcl (by simp)⟩
  · intro hcl
    exact ⟨reorgLoop_inserted_fields _ _ _ _ _ hloop hname hcl,
           reorgLoop_removed _ _ _ _ _ _ hloop hname hcl (by simp)⟩
  · intro hcl
    refine ⟨reorgLoop_removed _ _ _ _ _ _ hloop hname hcl (by simp), ?_, ?_⟩
    · intro habs
      refine reorgLoop_not_mem_preserved _ _ _ _ _ hloop habs ?_
      intro m _
      constructor
      · intro he
        obtain rfl : name = m := append_left_cancel_str he
        rw [hcl]
        simp
      · intro he
        exact absurd he (bias_name_ne_fields hns)
    · intro habs
      refine reorgLoop_not_mem_preserved _ _ _ _ _ hloop habs ?_
      intro m hm
      constructor
      · intro he
        exact absurd he (fields_name_ne_bias
          (brainDirListing_no_slash cfg.subject_id fs m hm))
      · intro he
        obtain rfl : name = m := append_left_cancel_str he
        rw [hcl]
        simp
  · intro hcl hmem
    refine reorgLoop_mem_preserved _ _ _ _ _ hloop hmem ?_
    intro m _ he
    obtain rfl : name = m := append_left_cancel_str he
    exact hcl

/-- Witness for the amended C8 on the spec's example: the `restore` file
ends in the bias-corrected directory and the `pve` file is gone from the
brain directory. -/
theorem bias_reorganisation_witness :
    ∃ fs' tr', correctBiasField ⟨"B-RAP_0027", [], "rigidfsl"⟩ "FSL" ex8fs =
        some (fs', tr') ∧
      (subject_bias_directory "B-RAP_0027" ++ "B-RAP_0027_01_D1_restore.nii.gz") ∈ fs' ∧
      (subject_brain_directory "B-RAP_0027" ++ "B-RAP_0027_01_D1_pve_0.nii.gz") ∉ fs' := by
  have hs : (correctBiasField ⟨"B-RAP_0027", [], "rigidfsl"⟩ "FSL" ex8fs).isSome := by rfl
  obtain ⟨r, hr⟩ := Option.isSome_iff_exists.mp hs
  obtain ⟨hall, -⟩ := bias_reorganisation ⟨"B-RAP_0027", [], "rigidfsl"⟩ ex8fs r.1 r.2 (by rw [hr])
  refine ⟨r.1, r.2, by rw [hr], ?_, ?_⟩
  · exact (hall "B-RAP_0027_01_D1_restore.nii.gz" (by decide)).1 (by rfl) |>.1
  · exact ((hall "B-RAP_0027_01_D1_pve_0.nii.gz" (by decide)).2.2.1 (by rfl)).1

/-! ## C9: unmatched registration method -/

/-- C9.  For a `registration_method` that is none of `rigidfsl`,
`affinefsl`, `nonlinearfsl`, `applyBETMask` performs no registration and
raises no error, yet proceeds unconditionally to `fsl.ApplyMask` on the
expected registered-volume path; the only file it writes is the
brain-extracted output. -/
theorem unknown_method_silent_noop (cfg : Config) (fs : FS) (extracted t : ℕ)
    (h1 : cfg.registration_method ≠ "rigidfsl")
    (h2 : cfg.registration_method ≠ "affinefsl")
    (h3 : cfg.registration_method ≠ "nonlinearfsl") :
    applyBETMaskEvents cfg extracted t =
      [Event.applyMask
        (registered_whole_brain_format cfg.subject_id (zfill2str t))
        (brain_file_mask_format cfg.subject_id (zfill2str extracted))
        (brain_file_format cfg.subject_id (zfill2str t))] ∧
    (applyBETMask cfg fs extracted t).1 =
      insertFile fs (brain_file_format cfg.subject_id (zfill2str t)) := by
  constructor
  · simp [applyBETMaskEvents, h1, h2, h3]
  · simp [applyBETMask, applyBETMaskFS, h1, h2, h3]

/-- Witness for C9 with `registration_method = "elastix"`. -/
theorem unknown_method_silent_noop_witness :
    applyBETMaskEvents ⟨"B-RAP_0027", [1, 2], "elastix"⟩ 2 1 =
      [Event.applyMask
        (registered_whole_brain_format "B-RAP_0027" (zfill2str 1))
        (brain_file_mask_format "B-RAP_0027" (zfill2str 2))
        (brain_file_format "B-RAP_0027" (zfill2str 1))] ∧
    (applyBETMask ⟨"B-RAP_0027", [1, 2], "elastix"⟩ [] 2 1).1 =
      insertFile [] (brain_file_format "B-RAP_0027" (zfill2str 1)) :=
  unknown_method_silent_noop ⟨"B-RAP_0027", [1, 2], "elastix"⟩ [] 2 1
    (by decide) (by decide) (by decide)

/-! ## C10: identity affine on saved outputs -/

/-- C10.  Every volume saved by `intensityNormalisation` and the variance
map saved by `calcVariance` are constructed with `np.eye(4)` as their
affine, whatever the affines of the source volumes were: the source
orientation metadata is discarded. -/
theorem identity_affine_on_outputs :
    (∀ (nyul : List NArr → List NArr) (images : List NiftiImage)
       (img : NiftiImage), img ∈ intensityNormalisationSaved nyul images →
       img.affine = eye4) ∧
    (∀ (numTps : ℕ) (images : List NiftiImage) (out : NiftiImage),
       calcVarianceVol numTps images = some out → out.affine = eye4) := by
  constructor
  · intro nyul images img hmem
    obtain ⟨a, -, rfl⟩ := List.mem_map.mp hmem
    rfl
  · intro numTps images out h
    simp only [calcVarianceVol] at h
    split at h
    · exact absurd h (by simp)
    · split at h
      · obtain rfl := Option.some.inj h
        rfl
      · exact absurd h (by simp)

/-- Witness for C10: a source volume with a non-identity affine (all
entries 7) is normalised and saved with the identity affine; the variance
of two such volumes is likewise saved with the identity affine. -/
theorem identity_affine_on_outputs_witness :
    (Nifti1Image ⟨(1, 1, 1), fun _ _ _ => 0⟩ eye4).affine = eye4 ∧
    ∀ out, calcVarianceVol 1 [⟨⟨(1, 1, 1), fun _ _ _ => 0⟩, fun _ _ => 7⟩] = some out →
      out.affine = eye4 := by
  constructor
  · exact identity_affine_on_outputs.1 id
      [⟨⟨(1, 1, 1), fun _ _ _ => 0⟩, fun _ _ => 7⟩]
      (Nifti1Image ⟨(1, 1, 1), fun _ _ _ => 0⟩ eye4)
      (by simp [intensityNormalisationSaved, NiftiImage.get_fdata])
  · intro out h
    exact identity_affine_on_outputs.2 1 [⟨⟨(1, 1, 1), fun _ _ _ => 0⟩, fun _ _ => 7⟩] out h

end Flair
